import Mathlib

set_option autoImplicit false

/-!
Verification development for the Hugo front-matter/content page lexer
(`parser/pageparser`), the Pygments options helper (`helpers/pygments.go`)
and the filesystem output-path translator (`target` package).

The pagelexer implementation itself is not among the given source files;
only its test file (`pageparser_intro_test.go`) is.  The lexer is therefore
modelled from the specification (sections 4.2, 4.3 and the normative
literal scenarios of section 8), with the byte-exact token boundaries fixed
by the test table, which the spec declares normative for boundary rules.
-/

namespace PageLexer

/-- Modelled from the spec: the closed token-kind enumeration of the page
lexer (`itemType` in the missing pagelexer source; the names follow the
test file). -/
inductive itemType where
  | tError
  | tEOF
  | tHTMLLead
  | tFrontMatterYAML
  | tFrontMatterTOML
  | tFrontMatterJSON
  | tFrontMatterORG
  | tText
  | tSummaryDivider
  | tSummaryDividerOrg
deriving DecidableEq, Repr

open itemType

/-- Modelled from the spec: one lexical token — a kind, a byte offset and a
byte span (bytes are modelled as `Char`s; the inputs are ASCII). -/
structure Item where
  typ : itemType
  pos : Nat
  val : List Char
deriving DecidableEq, Repr

def lbrace : Char := Char.ofNat 123

def rbrace : Char := Char.ofNat 125

def isEolC (c : Char) : Bool := c == '\n' || c == '\r'

def isSpaceTabC (c : Char) : Bool := c == ' ' || c == '\t'

def isWsC (c : Char) : Bool := c == ' ' || c == '\t' || c == '\r' || c == '\n'

/-- Modelled from the spec: the generic summary-divider marker. -/
def summaryDivider : List Char := ("<!--more-->").toList

/-- Modelled from the spec: the ORG summary-divider marker (a line
consisting of this text). -/
def summaryDividerOrg : List Char := ("# more").toList

/-- Modelled from the spec: consume one line terminator (CRLF, CR or LF),
returning the terminator bytes and the remainder. -/
def eatEol : List Char → Option (List Char × List Char)
  | '\r' :: '\n' :: r => some (['\r', '\n'], r)
  | '\r' :: r => some (['\r'], r)
  | '\n' :: r => some (['\n'], r)
  | _ => none

/-- Modelled from the spec: recognise an opening front-matter delimiter
line — exactly three copies of `d` followed by a line terminator.  Returns
the delimiter line (terminator included) and the remainder. -/
def delimOpen (d : Char) (input : List Char) : Option (List Char × List Char) :=
  match input with
  | a :: b :: c :: rest =>
      if a == d && b == d && c == d then
        (eatEol rest).map (fun p => (a :: b :: c :: p.1, p.2))
      else none
  | _ => none

/-- Modelled from the spec: recognise a closing front-matter delimiter line
(three copies of `d`, or three dots when `alt` — the YAML `...` variant —
is allowed) followed by a line terminator. -/
def closerLine (d : Char) (alt : Bool) (s : List Char) : Option (List Char × List Char) :=
  match s with
  | a :: b :: c :: r =>
      if (a == d && b == d && c == d) || (alt && a == '.' && b == '.' && c == '.') then
        (eatEol r).map (fun p => (a :: b :: c :: p.1, p.2))
      else none
  | _ => none

/-- A closing-delimiter line is recognised only at a line start. -/
def closerCheck (d : Char) (alt : Bool) (atStart : Bool) (s : List Char) :
    Option (List Char × List Char) :=
  if atStart then closerLine d alt s else none

/-- Modelled from the spec: scan forward for a closing delimiter line,
checking only at line starts.  Returns the span before the closer, the
closer line itself and the remainder; `none` when end-of-input is reached
first. -/
def scanClose (d : Char) (alt : Bool) : Bool → List Char → Option (List Char × List Char × List Char)
  | atStart, [] =>
    match closerCheck d alt atStart [] with
    | some p => some ([], p.1, p.2)
    | none => none
  | atStart, c :: cs =>
    match closerCheck d alt atStart (c :: cs) with
    | some p => some ([], p.1, p.2)
    | none => (scanClose d alt (isEolC c) cs).map (fun q => (c :: q.1, q.2.1, q.2.2))

/-- Modelled from the spec: one step of the JSON front-matter scanner
state — brace depth, inside-string flag and escaped flag.  Unescaped `{`
and `}` outside double-quoted strings change the depth; a backslash inside
a string escapes the next byte. -/
def jsonStep (depth : Nat) (inStr esc : Bool) (c : Char) : Nat × Bool × Bool :=
  if esc then (depth, inStr, false)
  else if inStr then
    if c == '\\' then (depth, true, true)
    else if c == '"' then (depth, false, false)
    else (depth, true, false)
  else
    if c == '"' then (depth, true, false)
    else if c == lbrace then (depth + 1, false, false)
    else if c == rbrace then (depth - 1, false, false)
    else (depth, false, false)

/-- The byte that returns the brace depth to zero: an unescaped closing
brace outside a string at depth one. -/
def jsonDone (depth : Nat) (inStr esc : Bool) (c : Char) : Bool :=
  !esc && !inStr && c == rbrace && depth == 1

/-- Modelled from the spec: the JSON front-matter scanner body — walk the
bytes tracking brace depth, ignoring braces inside double-quoted strings
and honouring backslash escapes within strings, until depth returns to
zero; the closing brace ends the span. -/
def jsonScanAux : Nat → Bool → Bool → List Char → Option (List Char × List Char)
  | _, _, _, [] => none
  | depth, inStr, esc, c :: cs =>
    if jsonDone depth inStr esc c then some ([c], cs)
    else
      (jsonScanAux (jsonStep depth inStr esc c).1 (jsonStep depth inStr esc c).2.1
          (jsonStep depth inStr esc c).2.2 cs).map
        (fun p => (c :: p.1, p.2))

/-- Modelled from the spec: scan a JSON front-matter block starting at an
opening brace; returns the brace-balanced span and the remainder. -/
def jsonScan (input : List Char) : Option (List Char × List Char) :=
  match input with
  | c :: cs =>
      if c == lbrace then (jsonScanAux 1 false false cs).map (fun p => (c :: p.1, p.2))
      else none
  | [] => none

/-- Modelled from the spec: consume contiguous ORG front-matter lines — on
reaching a line terminator, stop (terminator included) when the remainder
does not continue with another `#+` line. -/
def orgScanAux : List Char → List Char × List Char
  | [] => ([], [])
  | c :: cs =>
      if isEolC c && !(['#', '+'].isPrefixOf cs) then ([c], cs)
      else
        let q := orgScanAux cs
        (c :: q.1, q.2)

def eolOrEof (s : List Char) : Bool := s.isEmpty || s.head? == some '\n' || s.head? == some '\r'

/-- Modelled from the spec: locate the first occurrence of a summary
divider marker in the body.  The ORG marker (`anchored`) must begin a line
and be followed by a line terminator or end-of-input; the generic marker is
a plain substring.  Returns the bytes before the marker and those after. -/
def splitAtMarker (m : List Char) (anchored : Bool) : Bool → List Char → Option (List Char × List Char)
  | atStart, s =>
    if (!anchored || atStart) && m.isPrefixOf s && (!anchored || eolOrEof (s.drop m.length)) then
      some ([], s.drop m.length)
    else
      match s with
      | [] => none
      | c :: cs => (splitAtMarker m anchored (isEolC c) cs).map (fun p => (c :: p.1, p.2))

/-- The divider marker selected by the dialect (`true` = ORG). -/
def divMarker : Bool → List Char
  | true => summaryDividerOrg
  | false => summaryDivider

/-- The divider item kind selected by the dialect (`true` = ORG). -/
def divTyp : Bool → itemType
  | true => tSummaryDividerOrg
  | false => tSummaryDivider

/-- Modelled from the spec: body/content scanning — emit `Text` spans
interleaved with divider items until input is exhausted, then the final
(empty-suppressed) `Text` and `EndOfInput`.  The fuel argument bounds the
number of dividers; each divider consumes at least one byte, so
`s.length` fuel is always sufficient. -/
def bodyAux (org : Bool) : Nat → Nat → Bool → List Char → List Item
  | 0, pos, _, s =>
      (if s.isEmpty then [] else [⟨tText, pos, s⟩]) ++ [⟨tEOF, pos + s.length, []⟩]
  | fuel + 1, pos, atStart, s =>
    match splitAtMarker (divMarker org) org atStart s with
    | none => (if s.isEmpty then [] else [⟨tText, pos, s⟩]) ++ [⟨tEOF, pos + s.length, []⟩]
    | some p =>
        (if p.1.isEmpty then [] else [⟨tText, pos, p.1⟩]) ++
          ⟨divTyp org, pos + p.1.length, divMarker org⟩ ::
            bodyAux org fuel (pos + p.1.length + (divMarker org).length) false p.2

/-- Modelled from the spec: the body/content state, entered at byte offset
`pos` with the remaining bytes `s`. -/
def bodyItems (org : Bool) (pos : Nat) (atStart : Bool) (s : List Char) : List Item :=
  bodyAux org s.length pos atStart s

def yamlErrMsg : List Char := ("EOF looking for end YAML front matter delimiter").toList

def tomlErrMsg : List Char := ("EOF looking for end TOML front matter delimiter").toList

def jsonErrMsg : List Char := ("EOF looking for end JSON front matter delimiter").toList

/-- Modelled from the spec: a delimited (YAML/TOML) front-matter section.
The opening and closing delimiter lines are not part of any emitted span;
an unterminated block yields a single `Error` item. -/
def fmSection (tp : itemType) (d : Char) (alt : Bool) (msg : List Char)
    (opn rest0 input : List Char) : List Item :=
  match scanClose d alt true rest0 with
  | some q =>
      ⟨tp, opn.length, q.1⟩ ::
        bodyItems false (opn.length + q.1.length + q.2.1.length) true q.2.2
  | none => [⟨tError, input.length, msg⟩]

/-- Modelled from the spec: the JSON front-matter section.  The emitted
span includes the closing brace plus any line terminator immediately
following it; unbalanced braces yield a single `Error` item. -/
def jsonSection (input : List Char) : List Item :=
  match jsonScan input with
  | some q =>
    match eatEol q.2 with
    | some t =>
        ⟨tFrontMatterJSON, 0, q.1 ++ t.1⟩ ::
          bodyItems false (q.1.length + t.1.length) true t.2
    | none => ⟨tFrontMatterJSON, 0, q.1⟩ :: bodyItems false q.1.length false q.2
  | none => [⟨tError, input.length, jsonErrMsg⟩]

/-- Modelled from the spec: the intro/dialect-detection state and with it a
whole lexer run — dispatch on the byte prefix (YAML `---`, TOML `+++`,
JSON `{`, HTML lead `<` after same-line whitespace, ORG `#+` lines after
leading whitespace, an ORG-style document selecting the ORG divider, or
plain body text), then continue with the body/content state. -/
def lexTokens (input : List Char) : List Item :=
  match delimOpen '-' input with
  | some q => fmSection tFrontMatterYAML '-' true yamlErrMsg q.1 q.2 input
  | none =>
    match delimOpen '+' input with
    | some q => fmSection tFrontMatterTOML '+' false tomlErrMsg q.1 q.2 input
    | none =>
      match input.head? with
      | some c =>
        if c == lbrace then jsonSection input
        else if (input.dropWhile isSpaceTabC).head? == some '<' then
          ⟨tHTMLLead, 0, input.takeWhile isSpaceTabC ++ ['<']⟩ ::
            bodyItems false ((input.takeWhile isSpaceTabC).length + 1) false
              (input.dropWhile isSpaceTabC).tail
        else if ['#', '+'].isPrefixOf (input.dropWhile isWsC) then
          ⟨tFrontMatterORG, 0,
              input.takeWhile isWsC ++ (orgScanAux (input.dropWhile isWsC)).1⟩ ::
            bodyItems true
              ((input.takeWhile isWsC).length + (orgScanAux (input.dropWhile isWsC)).1.length)
              true (orgScanAux (input.dropWhile isWsC)).2
        else if (input.dropWhile isWsC).head? == some '#' then bodyItems true 0 true input
        else bodyItems false 0 true input
      | none => [⟨tEOF, 0, []⟩]

/-- The two start states a caller may select (`lexIntroSection` or the
main/body section, skipping front-matter detection). -/
inductive startKind where
  | introSection
  | mainSection
deriving DecidableEq, Repr

/-- Modelled from the spec: a full lexer run from a caller-selected start
state, as in the test driver `collect`. -/
def lexWith : startKind → List Char → List Item
  | .introSection, input => lexTokens input
  | .mainSection, input => bodyItems false 0 true input

/-- The (kind, span) projection of an item stream; the test file compares
exactly these two fields. -/
def pairs (items : List Item) : List (itemType × List Char) :=
  items.map (fun i => (i.typ, i.val))

/-- The terminal item kinds, `EndOfInput` and `Error`. -/
def isTerminalTyp : itemType → Bool
  | tEOF => true
  | tError => true
  | _ => false

/-- Non-synthetic items: everything except `EndOfInput` and `Error`. -/
def nonSynthetic (i : Item) : Bool := !(isTerminalTyp i.typ)

/-- Concatenation of the byte spans of the non-synthetic items, in order. -/
def spanConcat (items : List Item) : List Char :=
  (items.filter nonSynthetic).foldr (fun i acc => i.val ++ acc) []

def sliceAt (input : List Char) (p n : Nat) : List Char := (input.drop p).take n

/-- Each listed item's span is the contiguous slice of `input` at its
recorded position, and the items appear in non-decreasing, non-overlapping
position order starting at `p`. -/
def chainFrom (input : List Char) : Nat → List Item → Bool
  | _, [] => true
  | p, i :: rest =>
      decide (p ≤ i.pos) && i.val == sliceAt input i.pos i.val.length &&
        chainFrom input (i.pos + i.val.length) rest

def isFrontMatterKind : itemType → Bool
  | tFrontMatterYAML => true
  | tFrontMatterTOML => true
  | tFrontMatterJSON => true
  | tFrontMatterORG => true
  | _ => false

def hasTyp (items : List Item) (t : itemType) : Bool := items.any (fun i => i.typ == t)

/-- The stream ends with exactly one terminal (`EndOfInput` or `Error`)
item, which is its last element; no earlier element is terminal. -/
def endsOnceTerminal : List Item → Bool
  | [] => false
  | [i] => isTerminalTyp i.typ
  | i :: rest => !(isTerminalTyp i.typ) && endsOnceTerminal rest

def isEolChars (t : List Char) : Bool := t == ['\r', '\n'] || t == ['\r'] || t == ['\n']

def isOpenDelimLine (d : Char) (l : List Char) : Bool :=
  l.take 3 == [d, d, d] && isEolChars (l.drop 3)

def isCloseDelimLine (d : Char) (alt : Bool) (l : List Char) : Bool :=
  (l.take 3 == [d, d, d] || (alt && l.take 3 == ['.', '.', '.'])) && isEolChars (l.drop 3)

/-- The run selects the ORG dialect: no YAML/TOML/JSON/HTML-lead prefix,
and the first byte after leading whitespace is `#`. -/
def orgDialect (input : List Char) : Bool :=
  (delimOpen '-' input).isNone && (delimOpen '+' input).isNone &&
    !(input.head? == some lbrace) &&
    !((input.dropWhile isSpaceTabC).head? == some '<') &&
    ((input.dropWhile isWsC).head? == some '#')

/-- The input opens a front-matter delimiter (YAML `---`, TOML `+++` or a
JSON brace) whose matching closer is never found before end-of-input. -/
def opensUnterminated (input : List Char) : Bool :=
  match delimOpen '-' input with
  | some q => (scanClose '-' true true q.2).isNone
  | none =>
    match delimOpen '+' input with
    | some q => (scanClose '+' false true q.2).isNone
    | none =>
      match input.head? with
      | some c => c == lbrace && (jsonScan input).isNone
      | none => false

/- Concrete inputs from the test file / the spec's normative table. -/

def tstJSONChars : List Char := ("\x7b \"a\": \x7b \"b\": \"\\\"Hugo\\\"\x7d\" \x7d \x7d").toList

def tstORGChars : List Char := ("\n#+TITLE: T1\n#+AUTHOR: A1\n#+DESCRIPTION: D1\n").toList

def someTextChars : List Char := ("\nSome text.\n").toList

def inEmpty : List Char := []

def inHTML : List Char := ("  <html>  ").toList

def inYAML : List Char := ("---\nfoo: \"bar\"\n---\n\nSome text.\n").toList

def inYAMLCRLF : List Char := ("---\r\nfoo: \"bar\"\r\n---\n\nSome text.\n").toList

def inTOML : List Char := ("+++\nfoo = \"bar\"\n+++\n\nSome text.\n").toList

def inJSON : List Char := tstJSONChars ++ ("\r\n\nSome text.\n").toList

def inORG : List Char := tstORGChars ++ someTextChars

def inORGDivider : List Char := tstORGChars ++ ("\nSome text.\n# more\nSome text.\n").toList

def inTOMLDivider : List Char :=
  ("+++\nfoo = \"bar\"\n+++\n\nSome text.\n<!--more-->\nSome text.\n").toList

def inUnterminated : List Char := ("---\nfoo: \"bar\"\n").toList

end PageLexer

namespace Target

/-- The bytes of the final path element (everything after the last slash),
as Go `path.Split` computes it. -/
def lastElem (p : List Char) : List Char :=
  (p.reverse.takeWhile (fun c => !(c == '/'))).reverse

/-- Go `path.Split`: split after the final slash into directory (trailing
slash included) and file. -/
def pathSplit (p : List Char) : List Char × List Char :=
  (p.take (p.length - (lastElem p).length), lastElem p)

/-- Go `path.Ext`: the suffix starting at the final dot of the final path
element, or empty when that element has no dot. -/
def pathExt (p : List Char) : List Char :=
  if '.' ∈ p.reverse.takeWhile (fun c => !(c == '/')) then
    (((p.reverse.takeWhile (fun c => !(c == '/'))).takeWhile (fun c => !(c == '.'))) ++
        ['.']).reverse
  else []

/-- `filename` from the target package: the file name with its extension
stripped (`f[:len(f)-len(ext)]`); unchanged when there is no extension. -/
def filename (f : List Char) : List Char := f.take (f.length - (pathExt f).length)

/-- Split a path on slashes (the element decomposition Go `path.Clean`
walks). -/
def splitSlash : List Char → List (List Char)
  | [] => [[]]
  | c :: cs =>
      if c == '/' then [] :: splitSlash cs
      else
        match splitSlash cs with
        | [] => [[c]]
        | g :: gs => (c :: g) :: gs

/-- The element stack of Go `path.Clean`: drop empty and `.` elements,
resolve `..` against the stack (keeping leading `..`s of relative paths,
discarding them at the root). -/
def cleanParts (rooted : Bool) : List (List Char) → List (List Char) → List (List Char)
  | acc, [] => acc.reverse
  | acc, e :: es =>
      if e = [] ∨ e = ['.'] then cleanParts rooted acc es
      else if e = ['.', '.'] then
        match acc with
        | a :: as => if a = ['.', '.'] then cleanParts rooted (e :: acc) es
                     else cleanParts rooted as es
        | [] => if rooted then cleanParts rooted [] es else cleanParts rooted [e] es
      else cleanParts rooted (e :: acc) es

/-- Go `path.Clean` (lexical simplification of a slash path). -/
def pathClean (p : List Char) : List Char :=
  if p = [] then ['.']
  else if p.head? = some '/' then
    match List.intercalate ['/'] (cleanParts true [] (splitSlash p)) with
    | [] => ['/']
    | s => '/' :: s
  else
    match List.intercalate ['/'] (cleanParts false [] (splitSlash p)) with
    | [] => ['.']
    | s => s

/-- Go `path.Join`: drop leading empty elements, join the rest with
slashes and clean. -/
def pathJoin (elems : List (List Char)) : List Char :=
  match elems.dropWhile (fun e => e.isEmpty) with
  | [] => []
  | es => pathClean (List.intercalate ['/'] es)

/-- The `target.Filesystem` output (the `PublishDir` field does not affect
`Translate`). -/
structure Filesystem where
  UglyUrls : Bool
  DefaultExtension : List Char
  PublishDir : List Char

/-- `Filesystem.extension`: map `.md`/`.rst` to `.html`, keep any other
non-empty extension, else fall back to `DefaultExtension` or `.html`. -/
def Filesystem.extension (fs : Filesystem) (ext : List Char) : List Char :=
  if ext = (".md").toList ∨ ext = (".rst").toList then (".html").toList
  else if ext ≠ [] then ext
  else if fs.DefaultExtension ≠ [] then fs.DefaultExtension
  else (".html").toList

/-- `Filesystem.Translate`: `/` maps to `index.html`; otherwise the path is
split, the extension rewritten and the pieces rejoined (`name+ext` for ugly
URLs, `name/index+ext` otherwise).  The second component is the returned
error, which is `nil` (`none`) on every branch. -/
def Filesystem.Translate (fs : Filesystem) (src : List Char) : List Char × Option (List Char) :=
  if src = ['/'] then ((("index.html").toList), none)
  else if fs.UglyUrls then
    (pathJoin [(pathSplit src).1,
        filename (pathSplit src).2 ++ fs.extension (pathExt (pathSplit src).2)], none)
  else
    (pathJoin [(pathSplit src).1, filename (pathSplit src).2,
        ("index").toList ++ fs.extension (pathExt (pathSplit src).2)], none)

/-- The guard `if err != nil` that `Filesystem.Publish` runs right after
calling `Translate`: true exactly when `Translate` reported an error. -/
def Filesystem.publishEarlyError (fs : Filesystem) (path : List Char) : Bool :=
  ((fs.Translate path).2).isSome

end Target

namespace Helpers

/-- The sorted key list of `createOptionsString`: collect the map's keys
and `sort.Strings` them (ascending lexicographic order). -/
def sortedKeys (options : List (String × String)) : List String :=
  List.insertionSort (· ≤ ·) (options.map Prod.fst)

/-- `createOptionsString` from `helpers/pygments.go`: the map's `key=value`
pairs in ascending key order, joined by commas.  The map is modelled as an
association list with distinct keys. -/
def createOptionsString (options : List (String × String)) : String :=
  String.intercalate (",")
    ((sortedKeys options).map (fun k => k ++ "=" ++ ((options.lookup k).getD (""))))

/-- The SHA-1 preimage of `Highlight`'s cache key: the three
`io.WriteString` calls write `code`, `lang` and the options string into the
hash in that order.  The hash itself is an external collaborator; equal
preimages give equal cache keys. -/
def hashInput (code lang options : String) : String := code ++ lang ++ options

end Helpers

namespace PageLexer

open itemType

/- Validation of the model against every scenario of the test table
(`frontMatterTests` in `pageparser_intro_test.go`). -/

theorem validate_empty : pairs (lexTokens inEmpty) = [(tEOF, [])] := by decide

theorem validate_html :
    pairs (lexTokens inHTML) =
      [(tHTMLLead, ("  <").toList), (tText, ("html>  ").toList), (tEOF, [])] := by decide

theorem validate_yaml :
    pairs (lexTokens inYAML) =
      [(tFrontMatterYAML, ("foo: \"bar\"\n").toList), (tText, someTextChars), (tEOF, [])] := by
  decide

theorem validate_yaml_crlf :
    pairs (lexTokens inYAMLCRLF) =
      [(tFrontMatterYAML, ("foo: \"bar\"\r\n").toList), (tText, someTextChars), (tEOF, [])] := by
  decide

theorem validate_toml :
    pairs (lexTokens inTOML) =
      [(tFrontMatterTOML, ("foo = \"bar\"\n").toList), (tText, someTextChars), (tEOF, [])] := by
  decide

theorem validate_json :
    pairs (lexTokens inJSON) =
      [(tFrontMatterJSON, tstJSONChars ++ ['\r', '\n']), (tText, someTextChars), (tEOF, [])] := by
  decide

theorem validate_org :
    pairs (lexTokens inORG) =
      [(tFrontMatterORG, tstORGChars), (tText, someTextChars), (tEOF, [])] := by decide

theorem validate_org_divider :
    pairs (lexTokens inORGDivider) =
      [(tFrontMatterORG, tstORGChars), (tText, someTextChars),
        (tSummaryDividerOrg, summaryDividerOrg), (tText, someTextChars), (tEOF, [])] := by decide

theorem validate_toml_divider :
    pairs (lexTokens inTOMLDivider) =
      [(tFrontMatterTOML, ("foo = \"bar\"\n").toList), (tText, someTextChars),
        (tSummaryDivider, summaryDivider), (tText, someTextChars), (tEOF, [])] := by decide

/- Structural lemmas about the scanners. -/

lemma take_len_append (l1 l2 : List Char) : (l1 ++ l2).take l1.length = l1 := by
  induction l1 with
  | nil => rfl
  | cons a t ih => simp [ih]

lemma drop_len_append (l1 l2 : List Char) : (l1 ++ l2).drop l1.length = l2 := by
  induction l1 with
  | nil => rfl
  | cons a t ih => simp [ih]

lemma eatEol_eq : ∀ {s : List Char} {p : List Char × List Char},
    eatEol s = some p → s = p.1 ++ p.2 ∧ isEolChars p.1 = true := by
  intro s p h
  unfold eatEol at h
  split at h <;> first
    | (injection h with h2; subst h2; exact ⟨rfl, by simp [isEolChars]⟩)
    | exact absurd h (by simp)

lemma delimOpen_eq {d : Char} {input : List Char} {q : List Char × List Char}
    (h : delimOpen d input = some q) :
    input = q.1 ++ q.2 ∧ isOpenDelimLine d q.1 = true := by
  unfold delimOpen at h
  split at h
  · rename_i a b c rest
    split at h
    · rename_i habc
      cases he : eatEol rest with
      | none => simp [he] at h
      | some p =>
        simp only [he, Option.map_some'] at h
        obtain ⟨hs, he2⟩ := eatEol_eq he
        simp only [Bool.and_eq_true, beq_iff_eq] at habc
        obtain ⟨⟨rfl, rfl⟩, rfl⟩ := habc
        injection h with h
        subst h
        refine ⟨by simp [hs], ?_⟩
        simp [isOpenDelimLine, he2]
    · exact absurd h (by simp)
  · exact absurd h (by simp)

lemma closerLine_eq {d : Char} {alt : Bool} {s : List Char} {q : List Char × List Char}
    (h : closerLine d alt s = some q) :
    s = q.1 ++ q.2 ∧ isCloseDelimLine d alt q.1 = true := by
  unfold closerLine at h
  split at h
  · rename_i a b c rest
    split at h
    · rename_i habc
      cases he : eatEol rest with
      | none => simp [he] at h
      | some p =>
        simp only [he, Option.map_some'] at h
        obtain ⟨hs, he2⟩ := eatEol_eq he
        injection h with h
        subst h
        refine ⟨by simp [hs], ?_⟩
        simp only [Bool.or_eq_true, Bool.and_eq_true, beq_iff_eq] at habc
        rcases habc with ⟨⟨rfl, rfl⟩, rfl⟩ | ⟨⟨⟨halt, rfl⟩, rfl⟩, rfl⟩
        · simp [isCloseDelimLine, he2]
        · simp [isCloseDelimLine, he2, halt]
    · exact absurd h (by simp)
  · exact absurd h (by simp)

lemma closerCheck_eq {d : Char} {alt st : Bool} {s : List Char} {p : List Char × List Char}
    (h : closerCheck d alt st s = some p) : closerLine d alt s = some p := by
  unfold closerCheck at h
  split at h
  · exact h
  · exact absurd h (by simp)

lemma scanClose_eq {d : Char} {alt : Bool} :
    ∀ {st : Bool} {s : List Char} {q : List Char × List Char × List Char},
    scanClose d alt st s = some q →
    s = q.1 ++ q.2.1 ++ q.2.2 ∧ isCloseDelimLine d alt q.2.1 = true := by
  intro st s
  induction s generalizing st with
  | nil =>
    intro q h
    unfold scanClose at h
    cases hcl : closerCheck d alt st [] with
    | none => rw [hcl] at h; exact absurd h (by simp)
    | some p =>
      rw [hcl] at h
      injection h with h
      subst h
      obtain ⟨hs, hc⟩ := closerLine_eq (closerCheck_eq hcl)
      exact ⟨by simpa using hs, hc⟩
  | cons c cs ih =>
    intro q h
    unfold scanClose at h
    cases hcl : closerCheck d alt st (c :: cs) with
    | none =>
      rw [hcl] at h
      cases hr : scanClose d alt (isEolC c) cs with
      | none => rw [hr] at h; exact absurd h (by simp)
      | some q2 =>
        rw [hr, Option.map_some'] at h
        injection h with h
        subst h
        obtain ⟨hs, hc⟩ := ih hr
        exact ⟨by simp [hs], hc⟩
    | some p =>
      rw [hcl] at h
      injection h with h
      subst h
      obtain ⟨hs, hc⟩ := closerLine_eq (closerCheck_eq hcl)
      exact ⟨by simpa using hs, hc⟩

lemma jsonScanAux_eq : ∀ {depth : Nat} {inStr esc : Bool} {s : List Char}
    {p : List Char × List Char},
    jsonScanAux depth inStr esc s = some p →
    s = p.1 ++ p.2 ∧ p.1.getLast? = some rbrace := by
  intro depth inStr esc s
  induction s generalizing depth inStr esc with
  | nil => intro p h; simp [jsonScanAux] at h
  | cons c cs ih =>
    intro p h
    unfold jsonScanAux at h
    split at h
    · rename_i hdone
      cases h
      have hc : c = rbrace := by
        simp only [jsonDone, Bool.and_eq_true, beq_iff_eq] at hdone
        exact hdone.1.2
      simp [hc]
    · cases hr : jsonScanAux (jsonStep depth inStr esc c).1 (jsonStep depth inStr esc c).2.1
          (jsonStep depth inStr esc c).2.2 cs with
      | none => rw [hr] at h; simp at h
      | some q =>
        rw [hr, Option.map_some'] at h
        obtain ⟨hs, hl⟩ := ih hr
        cases h
        refine ⟨by simp [hs], ?_⟩
        cases hq : q.1 with
        | nil => rw [hq] at hl; simp at hl
        | cons a t =>
          rw [hq] at hl
          simpa [List.getLast?_cons_cons] using hl

lemma orgScanAux_append : ∀ s : List Char, (orgScanAux s).1 ++ (orgScanAux s).2 = s := by
  intro s
  induction s with
  | nil => rfl
  | cons c cs ih =>
    unfold orgScanAux
    split
    · rfl
    · simpa using ih

lemma splitAtMarker_eq {m : List Char} {anchored : Bool} :
    ∀ {st : Bool} {s : List Char} {p : List Char × List Char},
    splitAtMarker m anchored st s = some p → s = p.1 ++ m ++ p.2 := by
  intro st s
  induction s generalizing st with
  | nil =>
    intro p h
    unfold splitAtMarker at h
    split at h
    · rename_i hc
      simp only [Bool.and_eq_true] at hc
      have hpre := List.isPrefixOf_iff_prefix.mp hc.1.2
      obtain ⟨t, ht⟩ := hpre
      cases h
      simp only [← ht, drop_len_append]
      simp [ht.symm]
    · simp at h
  | cons c cs ih =>
    intro p h
    unfold splitAtMarker at h
    split at h
    · rename_i hc
      simp only [Bool.and_eq_true] at hc
      have hpre := List.isPrefixOf_iff_prefix.mp hc.1.2
      obtain ⟨t, ht⟩ := hpre
      cases h
      simp only [← ht, drop_len_append]
      simp [ht.symm]
    · cases hr : splitAtMarker m anchored (isEolC c) cs with
      | none => simp [hr] at h
      | some q =>
        simp only [hr, Option.map_some'] at h
        injection h with h
        subst h
        simp [ih hr]

/- Lemmas about the body/content scanner. -/

@[simp] lemma nonSynthetic_text (pos : Nat) (v : List Char) :
    nonSynthetic ⟨tText, pos, v⟩ = true := rfl

@[simp] lemma nonSynthetic_div (org : Bool) (pos : Nat) (v : List Char) :
    nonSynthetic ⟨divTyp org, pos, v⟩ = true := by cases org <;> rfl

@[simp] lemma nonSynthetic_eof (pos : Nat) (v : List Char) :
    nonSynthetic ⟨tEOF, pos, v⟩ = false := rfl

@[simp] lemma isTerminalTyp_div (org : Bool) : isTerminalTyp (divTyp org) = false := by
  cases org <;> rfl

@[simp] lemma isTerminalTyp_text : isTerminalTyp tText = false := rfl

lemma spanConcat_nil : spanConcat [] = [] := rfl

lemma spanConcat_cons (i : Item) (l : List Item) :
    spanConcat (i :: l) = (if nonSynthetic i then i.val else []) ++ spanConcat l := by
  unfold spanConcat
  by_cases hi : nonSynthetic i = true <;> simp [List.filter_cons, hi]

lemma spanConcat_append (l1 l2 : List Item) :
    spanConcat (l1 ++ l2) = spanConcat l1 ++ spanConcat l2 := by
  induction l1 with
  | nil => rfl
  | cons i t ih =>
    by_cases hi : nonSynthetic i = true <;>
      simp [spanConcat_cons, hi, ih]

lemma bodyAux_zero (org : Bool) (pos : Nat) (st : Bool) (s : List Char) :
    bodyAux org 0 pos st s =
      (if s.isEmpty then [] else [⟨tText, pos, s⟩]) ++ [⟨tEOF, pos + s.length, []⟩] := rfl

lemma bodyAux_succ_eq (org : Bool) (fuel pos : Nat) (st : Bool) (s : List Char) :
    bodyAux org (fuel + 1) pos st s =
      match splitAtMarker (divMarker org) org st s with
      | none => (if s.isEmpty then [] else [⟨tText, pos, s⟩]) ++ [⟨tEOF, pos + s.length, []⟩]
      | some p =>
          (if p.1.isEmpty then [] else [⟨tText, pos, p.1⟩]) ++
            ⟨divTyp org, pos + p.1.length, divMarker org⟩ ::
              bodyAux org fuel (pos + p.1.length + (divMarker org).length) false p.2 := rfl

lemma bodyAux_succ_none {org : Bool} {fuel pos : Nat} {st : Bool} {s : List Char}
    (h : splitAtMarker (divMarker org) org st s = none) :
    bodyAux org (fuel + 1) pos st s =
      (if s.isEmpty then [] else [⟨tText, pos, s⟩]) ++ [⟨tEOF, pos + s.length, []⟩] := by
  rw [bodyAux_succ_eq, h]

lemma bodyAux_succ_some {org : Bool} {fuel pos : Nat} {st : Bool} {s : List Char}
    {p : List Char × List Char} (h : splitAtMarker (divMarker org) org st s = some p) :
    bodyAux org (fuel + 1) pos st s =
      (if p.1.isEmpty then [] else [⟨tText, pos, p.1⟩]) ++
        ⟨divTyp org, pos + p.1.length, divMarker org⟩ ::
          bodyAux org fuel (pos + p.1.length + (divMarker org).length) false p.2 := by
  rw [bodyAux_succ_eq, h]

lemma bodyAux_concat (org : Bool) :
    ∀ (fuel pos : Nat) (st : Bool) (s : List Char),
    spanConcat (bodyAux org fuel pos st s) = s := by
  intro fuel
  induction fuel with
  | zero =>
    intro pos st s
    cases s <;> simp [bodyAux_zero, spanConcat_append, spanConcat_cons, spanConcat_nil]
  | succ fuel ih =>
    intro pos st s
    cases hsp : splitAtMarker (divMarker org) org st s with
    | none =>
      rw [bodyAux_succ_none hsp]
      cases s <;> simp [spanConcat_append, spanConcat_cons, spanConcat_nil]
    | some p =>
      rw [bodyAux_succ_some hsp]
      have hs := splitAtMarker_eq hsp
      cases hp1 : p.1 with
      | nil =>
        rw [hp1] at hs
        simp [hp1, spanConcat_cons, ih, hs]
      | cons a t =>
        rw [hp1] at hs
        simp [hp1, spanConcat_append, spanConcat_cons, ih, hs]

lemma bodyAux_all (org : Bool) (P : Item → Bool)
    (hT : ∀ pos v, P ⟨tText, pos, v⟩ = true)
    (hD : ∀ pos, P ⟨divTyp org, pos, divMarker org⟩ = true)
    (hE : ∀ pos, P ⟨tEOF, pos, []⟩ = true) :
    ∀ (fuel pos : Nat) (st : Bool) (s : List Char),
    (bodyAux org fuel pos st s).all P = true := by
  intro fuel
  induction fuel with
  | zero =>
    intro pos st s
    cases s <;> simp [bodyAux_zero, hT, hE]
  | succ fuel ih =>
    intro pos st s
    cases hsp : splitAtMarker (divMarker org) org st s with
    | none =>
      rw [bodyAux_succ_none hsp]
      cases s <;> simp [hT, hE]
    | some p =>
      rw [bodyAux_succ_some hsp]
      cases hp1 : p.1 with
      | nil => simp [hp1, hD, ih]
      | cons a t => simp [hp1, hT, hD, ih]

lemma bodyAux_ne_nil (org : Bool) (fuel pos : Nat) (st : Bool) (s : List Char) :
    bodyAux org fuel pos st s ≠ [] := by
  cases fuel with
  | zero => cases s <;> simp [bodyAux_zero]
  | succ fuel =>
    cases hsp : splitAtMarker (divMarker org) org st s with
    | none =>
      rw [bodyAux_succ_none hsp]
      cases s <;> simp
    | some p =>
      rw [bodyAux_succ_some hsp]
      cases hp1 : p.1 <;> simp [hp1]

lemma endsOnceTerminal_cons {i : Item} {l : List Item} (hl : l ≠ [])
    (hi : isTerminalTyp i.typ = false) :
    endsOnceTerminal (i :: l) = endsOnceTerminal l := by
  cases l with
  | nil => exact absurd rfl hl
  | cons a t => simp [endsOnceTerminal, hi]

lemma endsOnceTerminal_append_front (l1 l2 : List Item)
    (h1 : l1.all (fun i => !(isTerminalTyp i.typ)) = true)
    (h2 : endsOnceTerminal l2 = true) :
    endsOnceTerminal (l1 ++ l2) = true := by
  induction l1 with
  | nil => simpa using h2
  | cons i t ih =>
    simp only [List.all_cons, Bool.and_eq_true] at h1
    have hne : t ++ l2 ≠ [] := by
      intro hc
      rcases List.append_eq_nil.mp hc with ⟨rfl, rfl⟩
      simp [endsOnceTerminal] at h2
    rw [List.cons_append, endsOnceTerminal_cons hne (by simpa using h1.1)]
    exact ih h1.2

lemma bodyAux_terminal (org : Bool) :
    ∀ (fuel pos : Nat) (st : Bool) (s : List Char),
    endsOnceTerminal (bodyAux org fuel pos st s) = true := by
  intro fuel
  induction fuel with
  | zero =>
    intro pos st s
    cases s <;> simp [bodyAux_zero, endsOnceTerminal, isTerminalTyp]
  | succ fuel ih =>
    intro pos st s
    cases hsp : splitAtMarker (divMarker org) org st s with
    | none =>
      rw [bodyAux_succ_none hsp]
      cases s <;> simp [endsOnceTerminal, isTerminalTyp]
    | some p =>
      rw [bodyAux_succ_some hsp, List.append_cons]
      refine endsOnceTerminal_append_front _ _ ?_ (ih _ _ _)
      cases hp1 : p.1 <;> simp [hp1]

lemma bodyAux_chain (org : Bool) (input : List Char) :
    ∀ (fuel pos : Nat) (st : Bool) (s : List Char), input.drop pos = s →
    chainFrom input pos ((bodyAux org fuel pos st s).filter nonSynthetic) = true := by
  intro fuel
  induction fuel with
  | zero =>
    intro pos st s h
    cases s with
    | nil => simp [bodyAux_zero, chainFrom]
    | cons c cs =>
      simp [bodyAux_zero, chainFrom, List.filter_cons, sliceAt, h, List.take_length]
  | succ fuel ih =>
    intro pos st s h
    cases hsp : splitAtMarker (divMarker org) org st s with
    | none =>
      rw [bodyAux_succ_none hsp]
      cases s with
      | nil => simp [chainFrom]
      | cons c cs =>
        simp [chainFrom, List.filter_cons, sliceAt, h, List.take_length]
    | some p =>
      rw [bodyAux_succ_some hsp]
      have hs := splitAtMarker_eq hsp
      cases hp1 : p.1 with
      | nil =>
        rw [hp1] at hs
        have hdropm : input.drop pos = divMarker org ++ p.2 := by
          rw [h, hs]
          simp
        have hdrop2 : input.drop (pos + (divMarker org).length) = p.2 := by
          rw [← List.drop_drop, hdropm, drop_len_append]
        have hslicem : sliceAt input pos (divMarker org).length = divMarker org := by
          unfold sliceAt
          rw [hdropm, take_len_append]
        simp [chainFrom, hslicem, ih _ false p.2 hdrop2]
      | cons a t =>
        rw [hp1] at hs
        have hdropm : input.drop (pos + (t.length + 1)) = divMarker org ++ p.2 := by
          rw [← List.drop_drop, h, hs, List.append_assoc]
          exact drop_len_append (a :: t) _
        have hdrop2 :
            input.drop (pos + (t.length + 1) + (divMarker org).length) = p.2 := by
          rw [← List.drop_drop, hdropm, drop_len_append]
        have hslice1 : sliceAt input pos (t.length + 1) = a :: t := by
          unfold sliceAt
          rw [h, hs, List.append_assoc]
          exact take_len_append (a :: t) _
        have hslicem :
            sliceAt input (pos + (t.length + 1)) (divMarker org).length = divMarker org := by
          unfold sliceAt
          rw [hdropm, take_len_append]
        simp [chainFrom, hslice1, hslicem, ih _ false p.2 hdrop2]

/- Wrappers restating the `bodyAux` lemmas for `bodyItems`. -/

lemma bodyItems_concat (org : Bool) (pos : Nat) (st : Bool) (s : List Char) :
    spanConcat (bodyItems org pos st s) = s := bodyAux_concat org s.length pos st s

lemma bodyItems_all (org : Bool) (P : Item → Bool)
    (hT : ∀ pos v, P ⟨tText, pos, v⟩ = true)
    (hD : ∀ pos, P ⟨divTyp org, pos, divMarker org⟩ = true)
    (hE : ∀ pos, P ⟨tEOF, pos, []⟩ = true)
    (pos : Nat) (st : Bool) (s : List Char) :
    (bodyItems org pos st s).all P = true := bodyAux_all org P hT hD hE s.length pos st s

lemma bodyItems_terminal (org : Bool) (pos : Nat) (st : Bool) (s : List Char) :
    endsOnceTerminal (bodyItems org pos st s) = true := bodyAux_terminal org s.length pos st s

lemma bodyItems_ne_nil (org : Bool) (pos : Nat) (st : Bool) (s : List Char) :
    bodyItems org pos st s ≠ [] := bodyAux_ne_nil org s.length pos st s

lemma bodyItems_chain (org : Bool) (input : List Char) (pos : Nat) (st : Bool) (s : List Char)
    (h : input.drop pos = s) :
    chainFrom input pos ((bodyItems org pos st s).filter nonSynthetic) = true :=
  bodyAux_chain org input s.length pos st s h

@[simp] lemma nonSynthetic_error (pos : Nat) (v : List Char) :
    nonSynthetic ⟨tError, pos, v⟩ = false := rfl

@[simp] lemma nonSynthetic_yaml (pos : Nat) (v : List Char) :
    nonSynthetic ⟨tFrontMatterYAML, pos, v⟩ = true := rfl

@[simp] lemma nonSynthetic_toml (pos : Nat) (v : List Char) :
    nonSynthetic ⟨tFrontMatterTOML, pos, v⟩ = true := rfl

@[simp] lemma nonSynthetic_json (pos : Nat) (v : List Char) :
    nonSynthetic ⟨tFrontMatterJSON, pos, v⟩ = true := rfl

@[simp] lemma nonSynthetic_org (pos : Nat) (v : List Char) :
    nonSynthetic ⟨tFrontMatterORG, pos, v⟩ = true := rfl

@[simp] lemma nonSynthetic_html (pos : Nat) (v : List Char) :
    nonSynthetic ⟨tHTMLLead, pos, v⟩ = true := rfl

lemma chainFrom_mono {input : List Char} {l : List Item} {p q : Nat} (hpq : p ≤ q)
    (h : chainFrom input q l = true) : chainFrom input p l = true := by
  cases l with
  | nil => rfl
  | cons i rest =>
    simp only [chainFrom, Bool.and_eq_true, decide_eq_true_eq] at h ⊢
    exact ⟨⟨Nat.le_trans hpq h.1.1, h.1.2⟩, h.2⟩

/- Branch equations for a full run from the intro state. -/

lemma fmSection_found {tp : itemType} {d : Char} {alt : Bool} {msg opn rest0 input : List Char}
    {q2 : List Char × List Char × List Char} (h : scanClose d alt true rest0 = some q2) :
    fmSection tp d alt msg opn rest0 input =
      ⟨tp, opn.length, q2.1⟩ ::
        bodyItems false (opn.length + q2.1.length + q2.2.1.length) true q2.2.2 := by
  unfold fmSection
  rw [h]

lemma fmSection_err {tp : itemType} {d : Char} {alt : Bool} {msg opn rest0 input : List Char}
    (h : scanClose d alt true rest0 = none) :
    fmSection tp d alt msg opn rest0 input = [⟨tError, input.length, msg⟩] := by
  unfold fmSection
  rw [h]

lemma jsonSection_eol {input : List Char} {q t : List Char × List Char}
    (h : jsonScan input = some q) (he : eatEol q.2 = some t) :
    jsonSection input =
      ⟨tFrontMatterJSON, 0, q.1 ++ t.1⟩ ::
        bodyItems false (q.1.length + t.1.length) true t.2 := by
  unfold jsonSection
  simp only [h]
  rw [he]

lemma jsonSection_noeol {input : List Char} {q : List Char × List Char}
    (h : jsonScan input = some q) (he : eatEol q.2 = none) :
    jsonSection input = ⟨tFrontMatterJSON, 0, q.1⟩ :: bodyItems false q.1.length false q.2 := by
  unfold jsonSection
  simp only [h]
  rw [he]

lemma jsonSection_err {input : List Char} (h : jsonScan input = none) :
    jsonSection input = [⟨tError, input.length, jsonErrMsg⟩] := by
  unfold jsonSection
  rw [h]

lemma lexTokens_yaml {input : List Char} {q : List Char × List Char}
    (h : delimOpen '-' input = some q) :
    lexTokens input = fmSection tFrontMatterYAML '-' true yamlErrMsg q.1 q.2 input := by
  unfold lexTokens
  rw [h]

lemma lexTokens_toml {input : List Char} {q : List Char × List Char}
    (h1 : delimOpen '-' input = none) (h2 : delimOpen '+' input = some q) :
    lexTokens input = fmSection tFrontMatterTOML '+' false tomlErrMsg q.1 q.2 input := by
  unfold lexTokens
  rw [h1, h2]

lemma lexTokens_empty : lexTokens [] = [⟨tEOF, 0, []⟩] := rfl

lemma lexTokens_json {input : List Char}
    (h1 : delimOpen '-' input = none) (h2 : delimOpen '+' input = none)
    (h3 : input.head? = some lbrace) :
    lexTokens input = jsonSection input := by
  unfold lexTokens
  rw [h1, h2, h3]
  simp

lemma lexTokens_html {input : List Char} {c : Char}
    (h1 : delimOpen '-' input = none) (h2 : delimOpen '+' input = none)
    (h3 : input.head? = some c) (hc : (c == lbrace) = false)
    (h4 : ((input.dropWhile isSpaceTabC).head? == some '<') = true) :
    lexTokens input =
      ⟨tHTMLLead, 0, input.takeWhile isSpaceTabC ++ ['<']⟩ ::
        bodyItems false ((input.takeWhile isSpaceTabC).length + 1) false
          (input.dropWhile isSpaceTabC).tail := by
  unfold lexTokens
  rw [h1, h2, h3]
  simp [hc, h4]

lemma lexTokens_orgFM {input : List Char} {c : Char}
    (h1 : delimOpen '-' input = none) (h2 : delimOpen '+' input = none)
    (h3 : input.head? = some c) (hc : (c == lbrace) = false)
    (h4 : ((input.dropWhile isSpaceTabC).head? == some '<') = false)
    (h5 : (['#', '+'].isPrefixOf (input.dropWhile isWsC)) = true) :
    lexTokens input =
      ⟨tFrontMatterORG, 0, input.takeWhile isWsC ++ (orgScanAux (input.dropWhile isWsC)).1⟩ ::
        bodyItems true
          ((input.takeWhile isWsC).length + (orgScanAux (input.dropWhile isWsC)).1.length)
          true (orgScanAux (input.dropWhile isWsC)).2 := by
  unfold lexTokens
  rw [h1, h2, h3]
  simp [hc, h4, h5]

lemma lexTokens_orgBody {input : List Char} {c : Char}
    (h1 : delimOpen '-' input = none) (h2 : delimOpen '+' input = none)
    (h3 : input.head? = some c) (hc : (c == lbrace) = false)
    (h4 : ((input.dropWhile isSpaceTabC).head? == some '<') = false)
    (h5 : (['#', '+'].isPrefixOf (input.dropWhile isWsC)) = false)
    (h6 : ((input.dropWhile isWsC).head? == some '#') = true) :
    lexTokens input = bodyItems true 0 true input := by
  unfold lexTokens
  rw [h1, h2, h3]
  simp [hc, h4, h5, h6]

lemma lexTokens_genBody {input : List Char} {c : Char}
    (h1 : delimOpen '-' input = none) (h2 : delimOpen '+' input = none)
    (h3 : input.head? = some c) (hc : (c == lbrace) = false)
    (h4 : ((input.dropWhile isSpaceTabC).head? == some '<') = false)
    (h5 : (['#', '+'].isPrefixOf (input.dropWhile isWsC)) = false)
    (h6 : ((input.dropWhile isWsC).head? == some '#') = false) :
    lexTokens input = bodyItems false 0 true input := by
  unfold lexTokens
  rw [h1, h2, h3]
  simp [hc, h4, h5, h6]

lemma jsonScan_eq {input : List Char} {q : List Char × List Char} (h : jsonScan input = some q) :
    input = q.1 ++ q.2 ∧ q.1.getLast? = some rbrace := by
  unfold jsonScan at h
  split at h
  · rename_i c cs
    split at h
    · cases hr : jsonScanAux 1 false false cs with
      | none => rw [hr] at h; exact absurd h (by simp)
      | some p =>
        rw [hr, Option.map_some'] at h
        injection h with h
        subst h
        obtain ⟨hs, hl⟩ := jsonScanAux_eq hr
        constructor
        · simp [hs]
        · cases hp : p.1 with
          | nil => rw [hp] at hl; exact absurd hl (by simp)
          | cons a t =>
            rw [hp] at hl
            simpa [List.getLast?_cons_cons] using hl
    · exact absurd h (by simp)
  · exact absurd h (by simp)

lemma head?_some_cons {l : List Char} {a : Char} (h : l.head? = some a) : l = a :: l.tail := by
  cases l with
  | nil => exact absurd h (by simp)
  | cons x xs =>
    simp only [List.head?_cons, Option.some.injEq] at h
    simp [h]

/-- Every run from the intro state falls into one of eight shapes: an error
run, the empty input, a YAML/TOML front-matter run (delimiter lines
dropped), a JSON front-matter run, an HTML-lead run, an ORG front-matter
run, an ORG-style body run, or a plain body run. -/
lemma lexTokens_cases (input : List Char) :
    (∃ p msg, lexTokens input = [Item.mk tError p msg]) ∨
    (input = [] ∧ lexTokens input = [Item.mk tEOF 0 []]) ∨
    (∃ tp d opn v cl rest,
        ((tp = tFrontMatterYAML ∧ d = '-') ∨ (tp = tFrontMatterTOML ∧ d = '+')) ∧
        isOpenDelimLine d opn = true ∧ isCloseDelimLine d (d == '-') cl = true ∧
        input = opn ++ v ++ cl ++ rest ∧ orgDialect input = false ∧
        lexTokens input =
          Item.mk tp opn.length v ::
            bodyItems false (opn.length + v.length + cl.length) true rest) ∨
    (∃ v rest b,
        input = v ++ rest ∧ orgDialect input = false ∧
        lexTokens input = Item.mk tFrontMatterJSON 0 v :: bodyItems false v.length b rest) ∨
    (∃ ws rest,
        input = ws ++ '<' :: rest ∧ orgDialect input = false ∧
        lexTokens input =
          Item.mk tHTMLLead 0 (ws ++ ['<']) :: bodyItems false (ws.length + 1) false rest) ∨
    (∃ v rest,
        input = v ++ rest ∧ orgDialect input = true ∧
        lexTokens input = Item.mk tFrontMatterORG 0 v :: bodyItems true v.length true rest) ∨
    (orgDialect input = true ∧ lexTokens input = bodyItems true 0 true input) ∨
    (orgDialect input = false ∧ lexTokens input = bodyItems false 0 true input) := by
  cases hy : delimOpen '-' input with
  | some q =>
    cases hcl : scanClose '-' true true q.2 with
    | some q2 =>
      refine Or.inr (Or.inr (Or.inl ?_))
      obtain ⟨hin, hop⟩ := delimOpen_eq hy
      obtain ⟨hrest, hclo⟩ := scanClose_eq hcl
      refine ⟨tFrontMatterYAML, '-', q.1, q2.1, q2.2.1, q2.2.2, Or.inl ⟨rfl, rfl⟩, hop,
        ?_, ?_, ?_, ?_⟩
      · rw [show (('-' : Char) == '-') = true from rfl]
        exact hclo
      · rw [hin, hrest]
        simp [List.append_assoc]
      · simp [orgDialect, hy]
      · rw [lexTokens_yaml hy, fmSection_found hcl]
    | none =>
      exact Or.inl ⟨input.length, yamlErrMsg, by rw [lexTokens_yaml hy, fmSection_err hcl]⟩
  | none =>
  cases ht : delimOpen '+' input with
  | some q =>
    cases hcl : scanClose '+' false true q.2 with
    | some q2 =>
      refine Or.inr (Or.inr (Or.inl ?_))
      obtain ⟨hin, hop⟩ := delimOpen_eq ht
      obtain ⟨hrest, hclo⟩ := scanClose_eq hcl
      refine ⟨tFrontMatterTOML, '+', q.1, q2.1, q2.2.1, q2.2.2, Or.inr ⟨rfl, rfl⟩, hop,
        ?_, ?_, ?_, ?_⟩
      · rw [show (('+' : Char) == '-') = false from rfl]
        exact hclo
      · rw [hin, hrest]
        simp [List.append_assoc]
      · simp [orgDialect, hy, ht]
      · rw [lexTokens_toml hy ht, fmSection_found hcl]
    | none =>
      exact Or.inl ⟨input.length, tomlErrMsg, by rw [lexTokens_toml hy ht, fmSection_err hcl]⟩
  | none =>
  cases hh : input.head? with
  | none =>
    have hnil : input = [] := List.head?_eq_none_iff.mp hh
    exact Or.inr (Or.inl ⟨hnil, by rw [hnil]; exact lexTokens_empty⟩)
  | some c =>
  cases hcb : c == lbrace with
  | true =>
    have hceq : c = lbrace := eq_of_beq hcb
    subst hceq
    have hjson := lexTokens_json hy ht hh
    cases hj : jsonScan input with
    | none => exact Or.inl ⟨input.length, jsonErrMsg, by rw [hjson, jsonSection_err hj]⟩
    | some qj =>
      obtain ⟨hin, _⟩ := jsonScan_eq hj
      have hod : orgDialect input = false := by simp [orgDialect, hh]
      cases he : eatEol qj.2 with
      | some t =>
        refine Or.inr (Or.inr (Or.inr (Or.inl ⟨qj.1 ++ t.1, t.2, true, ?_, hod, ?_⟩)))
        · obtain ⟨ht2, _⟩ := eatEol_eq he
          rw [hin, ht2]
          simp [List.append_assoc]
        · rw [hjson, jsonSection_eol hj he]
          simp [List.length_append]
      | none =>
        refine Or.inr (Or.inr (Or.inr (Or.inl ⟨qj.1, qj.2, false, hin, hod, ?_⟩)))
        rw [hjson, jsonSection_noeol hj he]
  | false =>
  have hopt : (input.head? == some lbrace) = false := by
    rw [hh]
    exact hcb
  cases hhtml : (input.dropWhile isSpaceTabC).head? == some '<' with
  | true =>
    refine Or.inr (Or.inr (Or.inr (Or.inr (Or.inl ?_))))
    have hhd : (input.dropWhile isSpaceTabC).head? = some '<' := eq_of_beq hhtml
    have hsplit : input.dropWhile isSpaceTabC = '<' :: (input.dropWhile isSpaceTabC).tail :=
      head?_some_cons hhd
    refine ⟨input.takeWhile isSpaceTabC, (input.dropWhile isSpaceTabC).tail, ?_, ?_, ?_⟩
    · conv_lhs => rw [← List.takeWhile_append_dropWhile (p := isSpaceTabC) (l := input), hsplit]
    · simp [orgDialect, hhtml]
    · exact lexTokens_html hy ht hh hcb hhtml
  | false =>
  cases horg2 : ['#', '+'].isPrefixOf (input.dropWhile isWsC) with
  | true =>
    refine Or.inr (Or.inr (Or.inr (Or.inr (Or.inr (Or.inl ?_)))))
    obtain ⟨t2, ht2⟩ := List.isPrefixOf_iff_prefix.mp horg2
    have hw5 : ((input.dropWhile isWsC).head? == some '#') = true := by
      rw [← ht2]
      rfl
    refine ⟨input.takeWhile isWsC ++ (orgScanAux (input.dropWhile isWsC)).1,
      (orgScanAux (input.dropWhile isWsC)).2, ?_, ?_, ?_⟩
    · conv_lhs => rw [← List.takeWhile_append_dropWhile (p := isWsC) (l := input),
        ← orgScanAux_append (input.dropWhile isWsC)]
      rw [← List.append_assoc]
    · simp [orgDialect, hy, ht, hopt, hhtml, hw5]
    · rw [lexTokens_orgFM hy ht hh hcb hhtml horg2]
      simp [List.length_append]
  | false =>
  cases horg1 : (input.dropWhile isWsC).head? == some '#' with
  | true =>
    refine Or.inr (Or.inr (Or.inr (Or.inr (Or.inr (Or.inr (Or.inl ⟨?_, ?_⟩))))))
    · simp [orgDialect, hy, ht, hopt, hhtml, horg1]
    · exact lexTokens_orgBody hy ht hh hcb hhtml horg2 horg1
  | false =>
    refine Or.inr (Or.inr (Or.inr (Or.inr (Or.inr (Or.inr (Or.inr ⟨?_, ?_⟩))))))
    · simp [orgDialect, horg1]
    · exact lexTokens_genBody hy ht hh hcb hhtml horg2 horg1

/- Helper facts consumed by the claim theorems. -/

lemma body_ok_all (org : Bool) (pos : Nat) (st : Bool) (s : List Char) :
    (bodyItems org pos st s).all
      (fun i => !(isFrontMatterKind i.typ) && !(i.typ == tHTMLLead)) = true :=
  bodyItems_all org _ (fun _ _ => rfl) (fun _ => by cases org <;> rfl) (fun _ => rfl) pos st s

lemma body_countFM (org : Bool) (pos : Nat) (st : Bool) (s : List Char) :
    (bodyItems org pos st s).countP (fun i => isFrontMatterKind i.typ) = 0 := by
  rw [List.countP_eq_zero]
  have hall := bodyItems_all org (fun i => !(isFrontMatterKind i.typ)) (fun _ _ => rfl)
    (fun _ => by cases org <;> rfl) (fun _ => rfl) pos st s
  rw [List.all_eq_true] at hall
  intro i hi
  simpa using hall i hi

lemma all_tail {l : List Item} {p : Item → Bool} (h : l.all p = true) : l.tail.all p = true := by
  cases l with
  | nil => rfl
  | cons i t =>
    simp only [List.all_cons, Bool.and_eq_true] at h
    exact h.2

lemma hasTyp_false {items : List Item} {t : itemType}
    (h : items.all (fun i => !(i.typ == t)) = true) : hasTyp items t = false := by
  unfold hasTyp
  rw [List.any_eq_false]
  rw [List.all_eq_true] at h
  intro i hi
  simpa using h i hi

lemma body_noOrgDiv (pos : Nat) (st : Bool) (s : List Char) :
    hasTyp (bodyItems false pos st s) tSummaryDividerOrg = false :=
  hasTyp_false (bodyItems_all false _ (fun _ _ => rfl) (fun _ => rfl) (fun _ => rfl) pos st s)

lemma body_noGenDiv (pos : Nat) (st : Bool) (s : List Char) :
    hasTyp (bodyItems true pos st s) tSummaryDivider = false :=
  hasTyp_false (bodyItems_all true _ (fun _ _ => rfl) (fun _ => rfl) (fun _ => rfl) pos st s)

lemma delimOpen_head_ne {c d : Char} (h : (c == d) = false) (cs : List Char) :
    delimOpen d (c :: cs) = none := by
  unfold delimOpen
  cases cs with
  | nil => rfl
  | cons b t =>
    cases t with
    | nil => rfl
    | cons e r => simp [h]

/-- Claim C1 — counterexample.  On the YAML scenario of the test table the
concatenation of the non-synthetic spans omits the `---` delimiter lines,
so it does not reproduce the input. -/
theorem c1_span_coverage_counterexample :
    spanConcat (lexTokens inYAML) ≠ inYAML := by decide

/-- Claim C1 (amended): every emitted span is a contiguous, non-overlapping
subrange of the input in emission order; the concatenation of the
non-synthetic spans reproduces the input exactly, except that a run ending
in `Error` emits the single `Error` item and no spans, and a YAML/TOML
front-matter run omits exactly its opening and closing delimiter lines. -/
theorem c1_span_coverage_amended (input : List Char) :
    chainFrom input 0 ((lexTokens input).filter nonSynthetic) = true ∧
    ((∃ p msg, lexTokens input = [Item.mk tError p msg]) ∨
      spanConcat (lexTokens input) = input ∨
      (∃ d opn v cl rest, (d = '-' ∨ d = '+') ∧
        isOpenDelimLine d opn = true ∧ isCloseDelimLine d (d == '-') cl = true ∧
        input = opn ++ v ++ cl ++ rest ∧
        spanConcat (lexTokens input) = v ++ rest)) := by
  rcases lexTokens_cases input with
      ⟨p, msg, he⟩ | ⟨hnil, he⟩ |
      ⟨tp, d, opn, v, cl, rest, htp, hop, hclo, hin, _, he⟩ |
      ⟨v, rest, b, hin, _, he⟩ | ⟨ws, rest, hin, _, he⟩ | ⟨v, rest, hin, _, he⟩ |
      ⟨_, he⟩ | ⟨_, he⟩
  · refine ⟨?_, Or.inl ⟨p, msg, he⟩⟩
    rw [he]
    simp [chainFrom]
  · refine ⟨?_, Or.inr (Or.inl ?_)⟩
    · rw [he]
      simp [chainFrom]
    · rw [he, hnil]
      rfl
  · have hfm : nonSynthetic (Item.mk tp opn.length v) = true := by
      rcases htp with ⟨rfl, _⟩ | ⟨rfl, _⟩ <;> rfl
    have hslice : sliceAt input opn.length v.length = v := by
      unfold sliceAt
      rw [hin, show ((opn ++ v) ++ cl) ++ rest = opn ++ (v ++ (cl ++ rest)) from by
        simp [List.append_assoc], drop_len_append, take_len_append]
    have hdrop : input.drop (opn.length + v.length + cl.length) = rest := by
      rw [hin, show opn.length + v.length + cl.length = ((opn ++ v) ++ cl).length from by
        simp only [List.length_append], drop_len_append]
    constructor
    · rw [he]
      simp only [List.filter_cons, hfm, if_true]
      simp only [chainFrom, Bool.and_eq_true, decide_eq_true_eq]
      refine ⟨⟨Nat.zero_le _, by simp [hslice]⟩, ?_⟩
      refine chainFrom_mono ?_
        (bodyItems_chain false input (opn.length + v.length + cl.length) true rest hdrop)
      omega
    · refine Or.inr (Or.inr ⟨d, opn, v, cl, rest, ?_, hop, hclo, hin, ?_⟩)
      · rcases htp with ⟨_, rfl⟩ | ⟨_, rfl⟩
        · exact Or.inl rfl
        · exact Or.inr rfl
      · rw [he, spanConcat_cons]
        simp only [hfm, if_true]
        rw [bodyItems_concat]
  · have hslice : sliceAt input 0 v.length = v := by
      unfold sliceAt
      rw [List.drop_zero, hin, take_len_append]
    have hdrop : input.drop v.length = rest := by
      rw [hin, drop_len_append]
    constructor
    · rw [he]
      simp only [List.filter_cons, nonSynthetic_json, if_true]
      simp only [chainFrom, Bool.and_eq_true, decide_eq_true_eq]
      refine ⟨⟨Nat.zero_le _, by simp [hslice]⟩, ?_⟩
      simpa using bodyItems_chain false input v.length b rest hdrop
    · refine Or.inr (Or.inl ?_)
      rw [he, spanConcat_cons]
      simp only [nonSynthetic_json, if_true]
      rw [bodyItems_concat]
      exact hin.symm
  · have hcons : input = (ws ++ ['<']) ++ rest := by
      rw [hin]
      exact List.append_cons ws '<' rest
    have hslice : sliceAt input 0 (ws.length + 1) = ws ++ ['<'] := by
      unfold sliceAt
      rw [List.drop_zero, hcons, show ws.length + 1 = (ws ++ ['<']).length from by simp]
      exact take_len_append _ _
    have hdrop : input.drop (ws.length + 1) = rest := by
      rw [hcons, show ws.length + 1 = (ws ++ ['<']).length from by simp, drop_len_append]
    constructor
    · rw [he]
      simp only [List.filter_cons, nonSynthetic_html, if_true]
      simp only [chainFrom, Bool.and_eq_true, decide_eq_true_eq]
      refine ⟨⟨Nat.zero_le _, by simp [hslice]⟩, ?_⟩
      refine chainFrom_mono ?_ (bodyItems_chain false input (ws.length + 1) false rest hdrop)
      simp
    · refine Or.inr (Or.inl ?_)
      rw [he, spanConcat_cons]
      simp only [nonSynthetic_html, if_true]
      rw [bodyItems_concat]
      exact hcons.symm
  · have hslice : sliceAt input 0 v.length = v := by
      unfold sliceAt
      rw [List.drop_zero, hin, take_len_append]
    have hdrop : input.drop v.length = rest := by
      rw [hin, drop_len_append]
    constructor
    · rw [he]
      simp only [List.filter_cons, nonSynthetic_org, if_true]
      simp only [chainFrom, Bool.and_eq_true, decide_eq_true_eq]
      refine ⟨⟨Nat.zero_le _, by simp [hslice]⟩, ?_⟩
      simpa using bodyItems_chain true input v.length true rest hdrop
    · refine Or.inr (Or.inl ?_)
      rw [he, spanConcat_cons]
      simp only [nonSynthetic_org, if_true]
      rw [bodyItems_concat]
      exact hin.symm
  · refine ⟨?_, Or.inr (Or.inl ?_)⟩
    · rw [he]
      exact bodyItems_chain true input 0 true input (List.drop_zero input)
    · rw [he]
      exact bodyItems_concat true 0 true input
  · refine ⟨?_, Or.inr (Or.inl ?_)⟩
    · rw [he]
      exact bodyItems_chain false input 0 true input (List.drop_zero input)
    · rw [he]
      exact bodyItems_concat false 0 true input

/-- Claim C2: per run at most one front-matter-kind Item is emitted; when
present it is the first Item; an `HTMLLead` head excludes any front-matter
Item; and no front-matter or `HTMLLead` Item appears after the first
position. -/
theorem c2_single_front_matter (st : startKind) (input : List Char) :
    ((lexWith st input).tail.all
      (fun i => !(isFrontMatterKind i.typ) && !(i.typ == tHTMLLead))) = true ∧
    (lexWith st input).countP (fun i => isFrontMatterKind i.typ) ≤ 1 ∧
    (∀ x xs, lexWith st input = x :: xs → x.typ = tHTMLLead →
      (lexWith st input).countP (fun i => isFrontMatterKind i.typ) = 0) := by
  cases st with
  | mainSection =>
    refine ⟨all_tail (body_ok_all false 0 true input), ?_, ?_⟩
    · rw [show lexWith .mainSection input = bodyItems false 0 true input from rfl, body_countFM]
      exact Nat.zero_le 1
    · intro x xs _ _
      rw [show lexWith .mainSection input = bodyItems false 0 true input from rfl, body_countFM]
  | introSection =>
    rw [show lexWith .introSection input = lexTokens input from rfl]
    rcases lexTokens_cases input with
        ⟨p, msg, he⟩ | ⟨hnil, he⟩ |
        ⟨tp, d, opn, v, cl, rest, htp, _, _, _, _, he⟩ |
        ⟨v, rest, b, _, _, he⟩ | ⟨ws, rest, _, _, he⟩ | ⟨v, rest, _, _, he⟩ |
        ⟨_, he⟩ | ⟨_, he⟩
    · rw [he]
      refine ⟨rfl, by simp [List.countP_cons, isFrontMatterKind], ?_⟩
      intro x xs hx hty
      injection hx with hx1 _
      rw [← hx1] at hty
      simp at hty
    · rw [he]
      refine ⟨rfl, by simp [List.countP_cons, isFrontMatterKind], ?_⟩
      intro x xs hx hty
      injection hx with hx1 _
      rw [← hx1] at hty
      simp at hty
    · rw [he]
      rcases htp with ⟨rfl, _⟩ | ⟨rfl, _⟩ <;>
        refine ⟨body_ok_all false _ true rest, ?_, ?_⟩
      · rw [List.countP_cons, body_countFM]
        simp [isFrontMatterKind]
      · intro x xs hx hty
        injection hx with hx1 _
        rw [← hx1] at hty
        simp at hty
      · rw [List.countP_cons, body_countFM]
        simp [isFrontMatterKind]
      · intro x xs hx hty
        injection hx with hx1 _
        rw [← hx1] at hty
        simp at hty
    · rw [he]
      refine ⟨body_ok_all false _ b rest, ?_, ?_⟩
      · rw [List.countP_cons, body_countFM]
        simp [isFrontMatterKind]
      · intro x xs hx hty
        injection hx with hx1 _
        rw [← hx1] at hty
        simp at hty
    · rw [he]
      refine ⟨body_ok_all false _ false rest, ?_, ?_⟩
      · rw [List.countP_cons, body_countFM]
        simp [isFrontMatterKind]
      · intro x xs _ _
        rw [List.countP_cons, body_countFM]
        simp [isFrontMatterKind]
    · rw [he]
      refine ⟨body_ok_all true _ true rest, ?_, ?_⟩
      · rw [List.countP_cons, body_countFM]
        simp [isFrontMatterKind]
      · intro x xs hx hty
        injection hx with hx1 _
        rw [← hx1] at hty
        simp at hty
    · rw [he]
      refine ⟨all_tail (body_ok_all true 0 true input), ?_, ?_⟩
      · rw [body_countFM]
        exact Nat.zero_le 1
      · intro x xs _ _
        rw [body_countFM]
    · rw [he]
      refine ⟨all_tail (body_ok_all false 0 true input), ?_, ?_⟩
      · rw [body_countFM]
        exact Nat.zero_le 1
      · intro x xs _ _
        rw [body_countFM]

/-- Claim C2 — witness at the HTML-lead scenario, exercising the
`HTMLLead`-excludes-front-matter conjunct. -/
theorem c2_single_front_matter_witness :
    (lexWith .introSection inHTML).countP (fun i => isFrontMatterKind i.typ) = 0 :=
  (c2_single_front_matter .introSection inHTML).2.2
    ⟨tHTMLLead, 0, ("  <").toList⟩
    [⟨tText, 3, ("html>  ").toList⟩, ⟨tEOF, 10, []⟩] (by decide) rfl

lemma endsOnce_cons_of (i : Item) (l : List Item) (hl : l ≠ [])
    (hi : isTerminalTyp i.typ = false) (h : endsOnceTerminal l = true) :
    endsOnceTerminal (i :: l) = true := by
  rw [endsOnceTerminal_cons hl hi]
  exact h

/-- Claim C3: every run (from either start state, on any finite input)
terminates and its item stream ends with exactly one terminal Item —
`EndOfInput` or `Error` — as the last element, with no terminal Item
earlier in the stream. -/
theorem c3_termination (st : startKind) (input : List Char) :
    endsOnceTerminal (lexWith st input) = true := by
  cases st with
  | mainSection => exact bodyItems_terminal false 0 true input
  | introSection =>
    rw [show lexWith .introSection input = lexTokens input from rfl]
    rcases lexTokens_cases input with
        ⟨p, msg, he⟩ | ⟨hnil, he⟩ |
        ⟨tp, d, opn, v, cl, rest, htp, _, _, _, _, he⟩ |
        ⟨v, rest, b, _, _, he⟩ | ⟨ws, rest, _, _, he⟩ | ⟨v, rest, _, _, he⟩ |
        ⟨_, he⟩ | ⟨_, he⟩
    · rw [he]
      rfl
    · rw [he]
      rfl
    · rw [he]
      refine endsOnce_cons_of _ _ (bodyItems_ne_nil false _ true rest) ?_
        (bodyItems_terminal false _ true rest)
      rcases htp with ⟨rfl, _⟩ | ⟨rfl, _⟩ <;> rfl
    · rw [he]
      exact endsOnce_cons_of _ _ (bodyItems_ne_nil false _ b rest) rfl
        (bodyItems_terminal false _ b rest)
    · rw [he]
      exact endsOnce_cons_of _ _ (bodyItems_ne_nil false _ false rest) rfl
        (bodyItems_terminal false _ false rest)
    · rw [he]
      exact endsOnce_cons_of _ _ (bodyItems_ne_nil true _ true rest) rfl
        (bodyItems_terminal true _ true rest)
    · rw [he]
      exact bodyItems_terminal true 0 true input
    · rw [he]
      exact bodyItems_terminal false 0 true input

/-- Claim C4: on the CRLF test input, starting in the intro state, the run
emits exactly `FrontMatterYAML` with span `"foo: \"bar\"\r\n"` (internal
CRLF preserved verbatim), then `Text` with span `"\nSome text.\n"`, then
`EndOfInput`. -/
theorem c4_crlf_preservation :
    pairs (lexTokens inYAMLCRLF) =
      [(tFrontMatterYAML, ("foo: \"bar\"\r\n").toList),
        (tText, ("\nSome text.\n").toList), (tEOF, [])] := by decide

/-- Claim C5: an input that opens a front-matter delimiter (YAML `---`,
TOML `+++` or a JSON brace) with no matching closer before end-of-input
yields a single `Error` item, and the run emits no front-matter item of any
kind. -/
theorem c5_unterminated_error (input : List Char) (h : opensUnterminated input = true) :
    (∃ p msg, lexTokens input = [Item.mk tError p msg]) ∧
    ∀ i ∈ lexTokens input, isFrontMatterKind i.typ = false := by
  unfold opensUnterminated at h
  cases hy : delimOpen '-' input with
  | some q =>
    simp only [hy] at h
    have hcl : scanClose '-' true true q.2 = none := Option.isNone_iff_eq_none.mp h
    have he : lexTokens input = [⟨tError, input.length, yamlErrMsg⟩] := by
      rw [lexTokens_yaml hy, fmSection_err hcl]
    refine ⟨⟨_, _, he⟩, ?_⟩
    rw [he]
    intro i hi
    simp only [List.mem_singleton] at hi
    subst hi
    rfl
  | none =>
    simp only [hy] at h
    cases ht : delimOpen '+' input with
    | some q =>
      simp only [ht] at h
      have hcl : scanClose '+' false true q.2 = none := Option.isNone_iff_eq_none.mp h
      have he : lexTokens input = [⟨tError, input.length, tomlErrMsg⟩] := by
        rw [lexTokens_toml hy ht, fmSection_err hcl]
      refine ⟨⟨_, _, he⟩, ?_⟩
      rw [he]
      intro i hi
      simp only [List.mem_singleton] at hi
      subst hi
      rfl
    | none =>
      simp only [ht] at h
      cases hh : input.head? with
      | none => simp [hh] at h
      | some c =>
        simp only [hh, Bool.and_eq_true] at h
        have hceq : c = lbrace := eq_of_beq h.1
        subst hceq
        have hj : jsonScan input = none := Option.isNone_iff_eq_none.mp h.2
        have he : lexTokens input = [⟨tError, input.length, jsonErrMsg⟩] := by
          rw [lexTokens_json hy ht hh, jsonSection_err hj]
        refine ⟨⟨_, _, he⟩, ?_⟩
        rw [he]
        intro i hi
        simp only [List.mem_singleton] at hi
        subst hi
        rfl

/-- Claim C5 — witness at the unterminated-YAML scenario from the test
table. -/
theorem c5_unterminated_error_witness :
    opensUnterminated inUnterminated = true ∧
    (∃ p msg, lexTokens inUnterminated = [Item.mk tError p msg]) :=
  ⟨by decide, (c5_unterminated_error inUnterminated (by decide)).1⟩

/-- Claim C6: an input whose first byte is `{` always enters JSON
front-matter mode (the run equals `jsonSection`); a successful JSON scan
consumes exactly a prefix of the input ending at the closing brace; and on
the test-table JSON scenario (with a `}` inside a quoted string) the run
emits `FrontMatterJSON` spanning the blob plus its CRLF, then `Text`, then
`EndOfInput`. -/
theorem c6_json_front_matter :
    (∀ cs : List Char, lexTokens (lbrace :: cs) = jsonSection (lbrace :: cs)) ∧
    (∀ input sp rest, jsonScan input = some (sp, rest) →
      input = sp ++ rest ∧ sp.getLast? = some rbrace) ∧
    pairs (lexTokens inJSON) =
      [(tFrontMatterJSON, tstJSONChars ++ ['\r', '\n']),
        (tText, ("\nSome text.\n").toList), (tEOF, [])] := by
  refine ⟨?_, ?_, by decide⟩
  · intro cs
    exact lexTokens_json (delimOpen_head_ne (by decide) cs) (delimOpen_head_ne (by decide) cs)
      rfl
  · intro input sp rest h
    exact jsonScan_eq h

/-- Claim C6 — witness: the general conjuncts applied to the two-byte
input `{}`. -/
theorem c6_json_front_matter_witness :
    ([lbrace, rbrace] : List Char) = [lbrace, rbrace] ++ ([] : List Char) ∧
    ([lbrace, rbrace] : List Char).getLast? = some rbrace :=
  c6_json_front_matter.2.1 [lbrace, rbrace] [lbrace, rbrace] [] (by decide)

/-- Claim C7: a run never emits both divider spellings; `SummaryDividerORG`
is emitted only when the run selected the ORG dialect and `SummaryDivider`
only when it did not; and on the two divider scenarios of the test table
the divider is emitted as its own Item between `Text` Items. -/
theorem c7_summary_dividers (input : List Char) :
    ((hasTyp (lexTokens input) tSummaryDivider &&
      hasTyp (lexTokens input) tSummaryDividerOrg) = false) ∧
    ((hasTyp (lexTokens input) tSummaryDividerOrg && !(orgDialect input)) = false) ∧
    ((hasTyp (lexTokens input) tSummaryDivider && orgDialect input) = false) ∧
    pairs (lexTokens inORGDivider) =
      [(tFrontMatterORG, tstORGChars), (tText, ("\nSome text.\n").toList),
        (tSummaryDividerOrg, summaryDividerOrg), (tText, ("\nSome text.\n").toList),
        (tEOF, [])] ∧
    pairs (lexTokens inTOMLDivider) =
      [(tFrontMatterTOML, ("foo = \"bar\"\n").toList), (tText, ("\nSome text.\n").toList),
        (tSummaryDivider, summaryDivider), (tText, ("\nSome text.\n").toList), (tEOF, [])] := by
  have hasTyp_cons : ∀ (i : Item) (l : List Item) (t : itemType),
      hasTyp (i :: l) t = ((i.typ == t) || hasTyp l t) := fun _ _ _ => rfl
  rcases lexTokens_cases input with
      ⟨p, msg, he⟩ | ⟨hnil, he⟩ |
      ⟨tp, d, opn, v, cl, rest, htp, _, _, _, hod, he⟩ |
      ⟨v, rest, b, _, hod, he⟩ | ⟨ws, rest, _, hod, he⟩ | ⟨v, rest, _, hod, he⟩ |
      ⟨hod, he⟩ | ⟨hod, he⟩
  · have h1 : hasTyp (lexTokens input) tSummaryDivider = false := by
      rw [he]
      simp [hasTyp]
    have h2 : hasTyp (lexTokens input) tSummaryDividerOrg = false := by
      rw [he]
      simp [hasTyp]
    exact ⟨by simp [h1], by simp [h2], by simp [h1], by decide, by decide⟩
  · have h1 : hasTyp (lexTokens input) tSummaryDivider = false := by
      rw [he]
      simp [hasTyp]
    have h2 : hasTyp (lexTokens input) tSummaryDividerOrg = false := by
      rw [he]
      simp [hasTyp]
    exact ⟨by simp [h1], by simp [h2], by simp [h1], by decide, by decide⟩
  · have h2 : hasTyp (lexTokens input) tSummaryDividerOrg = false := by
      rw [he, hasTyp_cons, body_noOrgDiv]
      rcases htp with ⟨rfl, _⟩ | ⟨rfl, _⟩ <;> rfl
    exact ⟨by simp [h2], by simp [h2], by simp [hod], by decide, by decide⟩
  · have h2 : hasTyp (lexTokens input) tSummaryDividerOrg = false := by
      rw [he, hasTyp_cons, body_noOrgDiv]
      rfl
    exact ⟨by simp [h2], by simp [h2], by simp [hod], by decide, by decide⟩
  · have h2 : hasTyp (lexTokens input) tSummaryDividerOrg = false := by
      rw [he, hasTyp_cons, body_noOrgDiv]
      rfl
    exact ⟨by simp [h2], by simp [h2], by simp [hod], by decide, by decide⟩
  · have h1 : hasTyp (lexTokens input) tSummaryDivider = false := by
      rw [he, hasTyp_cons, body_noGenDiv]
      rfl
    exact ⟨by simp [h1], by simp [hod], by simp [h1], by decide, by decide⟩
  · have h1 : hasTyp (lexTokens input) tSummaryDivider = false := by
      rw [he]
      exact body_noGenDiv 0 true input
    exact ⟨by simp [h1], by simp [hod], by simp [h1], by decide, by decide⟩
  · have h2 : hasTyp (lexTokens input) tSummaryDividerOrg = false := by
      rw [he]
      exact body_noOrgDiv 0 true input
    exact ⟨by simp [h2], by simp [h2], by simp [hod], by decide, by decide⟩

/-- Claim C8: the lexer is a pure function of its input bytes and start
state — two runs over equal byte buffers from equal start states yield
identical item sequences (kinds, positions and spans). -/
theorem c8_relex_deterministic (st1 st2 : startKind) (i1 i2 : List Char)
    (hst : st1 = st2) (hin : i1 = i2) : lexWith st1 i1 = lexWith st2 i2 := by
  subst hst
  subst hin
  rfl

/-- Claim C8 — witness: two runs over the YAML scenario coincide. -/
theorem c8_relex_deterministic_witness :
    lexWith .introSection inYAML = lexWith .introSection inYAML :=
  c8_relex_deterministic .introSection .introSection inYAML inYAML rfl rfl

end PageLexer

namespace Target

/-- Claim C9: `Filesystem.Translate` returns a `nil` error for every input
path — `/` maps to `index.html`, and every other path is mapped by pure
string manipulation with no failing branch — so the error branch after the
`Translate` call inside `Filesystem.Publish` is unreachable. -/
theorem c9_translate_never_fails (fs : Filesystem) (src : List Char) :
    (fs.Translate src).2 = none ∧ fs.publishEarlyError src = false ∧
    fs.Translate ['/'] = (("index.html").toList, none) := by
  have herr : ∀ p : List Char, (fs.Translate p).2 = none := by
    intro p
    unfold Filesystem.Translate
    split
    · rfl
    · split <;> rfl
  refine ⟨herr src, ?_, ?_⟩
  · unfold Filesystem.publishEarlyError
    rw [herr]
    rfl
  · unfold Filesystem.Translate
    rw [if_pos rfl]

end Target

namespace Helpers

lemma lookup_perm (k : String) : ∀ {m1 m2 : List (String × String)}, m1.Perm m2 →
    (m1.map Prod.fst).Nodup → m1.lookup k = m2.lookup k := by
  intro m1 m2 h
  induction h with
  | nil => intro _; rfl
  | cons x h ih =>
    intro nd
    obtain ⟨xk, xv⟩ := x
    simp only [List.map_cons, List.nodup_cons] at nd
    cases hk : k == xk <;> simp [List.lookup, hk, ih nd.2]
  | swap x y l =>
    intro nd
    obtain ⟨xk, xv⟩ := x
    obtain ⟨yk, yv⟩ := y
    simp only [List.map_cons, List.nodup_cons, List.mem_cons] at nd
    have hxy : yk ≠ xk := fun hcc => nd.1 (Or.inl hcc)
    cases hky : k == yk <;> cases hkx : k == xk <;>
        simp [List.lookup, hky, hkx]
    exact absurd ((eq_of_beq hky).symm.trans (eq_of_beq hkx)) hxy
  | trans h1 h2 ih1 ih2 =>
    intro nd
    exact (ih1 nd).trans (ih2 ((h1.map Prod.fst).nodup nd))

/-- Claim C10: `createOptionsString` is a deterministic function of the map
contents — it emits the `key=value` pairs in ascending lexicographic key
order joined by commas, independently of insertion or iteration order — so
for a fixed configuration two `Highlight` calls with equal
`(code, lang, optsStr)` build the same SHA-1 preimage for the cache key. -/
theorem c10_options_string_deterministic (m1 m2 : List (String × String))
    (nd : (m1.map Prod.fst).Nodup) (hperm : m1.Perm m2) :
    createOptionsString m1 = createOptionsString m2 ∧
    List.Sorted (· ≤ ·) (sortedKeys m1) ∧
    (∀ code lang : String,
      hashInput code lang (createOptionsString m1) =
        hashInput code lang (createOptionsString m2)) := by
  have hkeys : sortedKeys m1 = sortedKeys m2 := by
    refine List.eq_of_perm_of_sorted ?_ (List.sorted_insertionSort _ _)
      (List.sorted_insertionSort _ _)
    exact (List.perm_insertionSort _ _).trans
      ((hperm.map Prod.fst).trans (List.perm_insertionSort _ _).symm)
  have hmain : createOptionsString m1 = createOptionsString m2 := by
    unfold createOptionsString
    rw [hkeys]
    congr 1
    refine List.map_congr_left ?_
    intro k _
    rw [lookup_perm k hperm nd]
  exact ⟨hmain, List.sorted_insertionSort _ _, fun code lang => by rw [hmain]⟩

/-- Claim C10 — witness: a two-entry map and its reversal produce the same
options string. -/
theorem c10_options_string_deterministic_witness :
    createOptionsString [(("linenos"), ("true")), (("style"), ("monokai"))] =
      createOptionsString [(("style"), ("monokai")), (("linenos"), ("true"))] :=
  (c10_options_string_deterministic _ _ (by decide) (List.Perm.swap _ _ _)).1

end Helpers
